import Mathlib

/-!
Shallow embedding of the trignoclient core and verification of its
natural-language specification.

Components embedded (from the repository sources):
* sample decoding from raw bytes      — src/sample.cpp
* frames, stamped frames, sequences   — frame.hpp, sequence.cpp
* sorted-indexer binary search        — std/sorted_indexer.hpp
* time window / overlap conversion    — src/core/sequence.cpp
* data-client timestamping            — src/network/basic_data_client.cpp
* range views and the iterative tool  — sorted_indexer.hpp, tools/iterative.hpp
* executor run loop                   — std/basic_executor.hpp
* deadline transport event loop       — std/tcp_client.hpp
* protocol session query              — src/network/interface.cpp

Machine floats are embedded as exact rationals; raw float payloads are
embedded as their 4-byte patterns.  Fallible operations return `Except`.
-/

namespace Trigno

/-! ### Sample construction from raw bytes (src/sample.cpp lines 8-17) -/

/-- Bytes of one float-sized (4-byte) slot of a raw buffer at a byte `offset`.
Models a `memcpy(dst, raw + offset, sizeof(float))` read; the copied value is
kept as its 4-byte pattern (no float semantics are needed by the claims). -/
def floatBytes (raw : List UInt8) (offset : ℕ) : List UInt8 :=
  (raw.drop offset).take 4

/-- Channel data of `trigno::Sample::Sample(sensor::ID, size_t, const char*)`
(src/sample.cpp lines 8-17).  `_data(n_channels)` value-initializes
`n_channels` float channels (all-zero byte patterns).  When `raw_data` is
non-null, the constructor loops `for (ch = 0; ch < n_channels; ch++)` and runs
`memcpy(&_data[ch], raw_data, sizeof(_data[ch]))`: every iteration copies from
`raw_data` itself, i.e. from byte offset 0 — the source pointer is never
advanced, which the embedded loop body reproduces literally. -/
def sampleFromRaw (nChannels : ℕ) (rawData : Option (List UInt8)) :
    List (List UInt8) :=
  match rawData with
  | none => List.replicate nChannels (List.replicate 4 0)
  | some raw => (List.range nChannels).map fun _ch => floatBytes raw 0

/-! ### Frames, stamped frames, sequences (frame.hpp, sequence.cpp) -/

/-- Decoded per-sensor sample: owning sensor identifier plus channel values
(`trigno::Sample`, sample.hpp).  Channel values are exact rationals. -/
structure Sample where
  id : ℕ
  values : List ℚ
deriving DecidableEq, Repr

/-- Ordered collection of samples, one per active sensor (`trigno::Frame`,
frame.hpp: `class Frame : public std::index< Sample >`). -/
structure Frame where
  samples : List Sample
deriving DecidableEq, Repr

/-- Modelled from the spec: `Frame::sensors()` is declared in frame.hpp
(line 131) but its definition is not under src/.  Its doc comment reads
"Useful when checking if frame contains data for specific sensors or when
comparing different frames e.g. frame.sensors() == other.sensors()", and the
spec describes a Frame as samples "each tagged with a stable label
(insertion-order preserved)".  Modelled as the frame's sample identifiers in
insertion order; `sensor::List` equality (sensor.hpp lines 147-158) is
element-wise list equality, which `List ℕ` equality matches. -/
def Frame.sensors (f : Frame) : List ℕ :=
  f.samples.map Sample.id

/-- Stamped frame: a frame tagged with a timestamp key
(`Frame::Stamped = std::tagged< Frame, TimeStamp >`, frame.hpp line 63). -/
structure Stamped where
  key : ℚ
  data : Frame
deriving DecidableEq, Repr

/-- Time-sorted collection of stamped frames (`trigno::Sequence`,
sequence.hpp: `std::series< Frame, Frame::TimeStamp >`, backed by a deque).
The deque content is embedded as a list in front-to-back order. -/
abbrev Sequence := List Stamped

/-- Timestamp keys of a sequence, front to back. -/
def Sequence.keys (s : Sequence) : List ℚ :=
  s.map Stamped.key

/-- Error raised by `Sequence::add` (both are `std::invalid_argument`; the
constructor distinguishes them only by message text). -/
inductive AddError where
  | ordering
  | sensorMismatch
deriving DecidableEq, Repr

/-- Embedding of `trigno::Sequence::add(const Frame::Stamped&, bool, bool)`
(src/src/core/sequence.cpp lines 21-32):

  if (sequential && size() && frame.key <= _data.back().key) throw ...;
  if (match_sensors && size() && back().sensors() != frame.get().sensors()) throw ...;
  _data.emplace_back(frame);

A thrown exception is an `Except.error` result and leaves the sequence value
unused (no mutation happens before either throw). -/
def Sequence.add (s : Sequence) (f : Stamped) (sequential matchSensors : Bool) :
    Except AddError Sequence :=
  match s.getLast? with
  | some b =>
    if sequential = true ∧ f.key ≤ b.key then
      Except.error AddError.ordering
    else if matchSensors = true ∧ b.data.sensors ≠ f.data.sensors then
      Except.error AddError.sensorMismatch
    else
      Except.ok (s ++ [f])
  | none => Except.ok (s ++ [f])

/-! ### Binary search of `std::sorted_indexer::find`
(sorted_indexer.hpp lines 350-356) -/

/-- Half-interval search of `std::lower_bound` over a random-access range, as
called by `sorted_indexer::find` with `key_comparer` (element.key < key):
repeatedly halve the interval `[first, first + len)`, descending right when
the probed key compares `< t`.  `getD _ 0` embeds the iterator dereference
(the probe index is within bounds whenever `first + len ≤ keys.length`). -/
def lowerBoundFrom (keys : List ℚ) (t : ℚ) (first len : ℕ) : ℕ :=
  if h : len = 0 then first
  else if keys.getD (first + len / 2) 0 < t then
    lowerBoundFrom keys t (first + len / 2 + 1) (len - len / 2 - 1)
  else
    lowerBoundFrom keys t first (len / 2)
termination_by len
decreasing_by
  all_goals omega

/-- `std::lower_bound(_data.begin(), _data.end(), key, key_comparer)` over the
whole container. -/
def lowerBound (keys : List ℚ) (t : ℚ) : ℕ :=
  lowerBoundFrom keys t 0 keys.length

/-- `std::sorted_indexer::find` (sorted_indexer.hpp lines 350-356): binary
search for the first element whose key is not `< t`, returning its distance
from the beginning of the container. -/
def Sequence.find (s : Sequence) (t : ℚ) : ℕ :=
  lowerBound (Sequence.keys s) t

/-- Reference lower-bound index, stated from the spec words: position of the
first element with key ≥ `t`, `size()` when every key is less than `t`
(`List.findIdx` returns the list length when no element matches). -/
def lowerBoundSpec (keys : List ℚ) (t : ℚ) : ℕ :=
  keys.findIdx fun k => decide (t ≤ k)

/-! ### Time-to-sample-count conversion of `Sequence::range`
(src/src/core/sequence.cpp lines 114-130) -/

/-- Conversion of a nonnegative float to `unsigned int`: C++ float-to-integer
conversion truncates toward zero (the operands converted in
`Sequence::range` are results of `sqrt`, hence nonnegative, where truncation
toward zero is the floor). -/
def floatToUInt (x : ℚ) : ℕ :=
  (⌊x⌋).toNat

/-- Time-to-element-count conversion used for both `window` and `overlap` in
`Sequence::range(float, float, float, float)` (sequence.cpp lines 116-117 and
126-127): `unsigned int n = sqrt(pow(duration * sample_rate, 2));`.  The
`sqrt` call is `Rat.sqrt` (exact on the perfect square produced by
`pow(x, 2)`, which the float composition also computes up to rounding). -/
def sampleCount (duration sampleRate : ℚ) : ℕ :=
  floatToUInt (Rat.sqrt ((duration * sampleRate) ^ 2))

/-- The conversion as the spec words it: `round(|duration × sample_rate|)`,
the nearest integer to the absolute product. -/
def sampleCountSpec (duration sampleRate : ℚ) : ℕ :=
  (round |duration * sampleRate|).toNat

/-! ### Data-client timestamping (src/src/network/basic_data_client.cpp) -/

/-- Timestamp and post-incremented frame counter produced by the
value-returning `BasicDataClient::read<Frame::Stamped>` (basic_data_client.cpp
lines 64-84): `Frame::Stamped((_frame_idx++) * (1.0 / _sample_rate), ...)`. -/
def readStamp (frameIdx : ℕ) (sampleRate : ℚ) : ℚ × ℕ :=
  ((frameIdx : ℚ) * (1 / sampleRate), frameIdx + 1)

/-- Timestamp and post-incremented frame counter produced by the in-place
`BasicDataClient::read<Frame::Stamped>(T*, ...)` (basic_data_client.cpp lines
88-108): `Frame::Stamped((_frame_idx++) * _sample_rate, ...)` — the counter is
multiplied by the rate itself, not by its reciprocal. -/
def readStampInPlace (frameIdx : ℕ) (sampleRate : ℚ) : ℚ × ℕ :=
  ((frameIdx : ℚ) * sampleRate, frameIdx + 1)

/-! ### Range views (sorted_indexer.hpp; advancing semantics of the absent
range_iterator.hpp modelled from the spec) -/

/-- Positional window view over a sequence: start position, width (element
count) and advance overlap.  `std::range_iterator` captures a container
pointer plus these numeric bounds; the container itself is passed to the
operations below as its current size `n`. -/
structure RangeV where
  start : ℕ
  width : ℕ
  overlap : ℕ
deriving DecidableEq, Repr

/-- `sorted_indexer::begin(width, overlap)` (sorted_indexer.hpp lines
367-376): `auto n = width > this->size() ? this->size() : width; return
element_range(&_data, 0, n, overlap);` — a range wider than the container is
clamped to the container size. -/
def beginRange (n width overlap : ℕ) : RangeV :=
  { start := 0, width := if width > n then n else width, overlap := overlap }

/-- Modelled from the spec: the header `range_iterator.hpp` defining
`std::range_iterator` (its `operator+=`/`operator+`) is not under src/.
Spec §4.4: "Advancing a Range by `step` shifts its start by `step − overlap`
elements (overlap clamped to `< width`); advancing past either end clamps
width to what remains rather than erroring."  `n` is the current size of the
underlying container; the start is kept inside `[0, n]` and the width is
clamped to the elements remaining after the new start. -/
def RangeV.advance (r : RangeV) (n : ℕ) (step : ℤ) : RangeV :=
  let o : ℤ := max 0 (min (r.overlap : ℤ) ((r.width : ℤ) - 1))
  let target : ℤ := (r.start : ℤ) + step - o
  let start : ℕ := (max 0 (min target (n : ℤ))).toNat
  { start := start, width := min r.width (n - start), overlap := r.overlap }

/-- `Iterative::incrementable(range, step)` (tools/iterative.hpp lines
247-254):

  auto next = (step >= 0) ? (range + step) : (range - step);
  if (range == next || next.size() == 0) return false;
  return true;

with `range + k` / `range - k` modelled from the spec as advancing by `k` /
`-k` (so both branches advance by `step` when `step ≥ 0` and by `-step`
otherwise). -/
def incrementable (n : ℕ) (r : RangeV) (step : ℤ) : Bool :=
  let next := if 0 ≤ step then r.advance n step else r.advance n (-step)
  if r = next ∨ next.width = 0 then false else true

/-- `Iterative::active()` (tools/iterative.hpp lines 236-243):

  if (!incrementable(_range, _step)) {
      std::this_thread::sleep_for(_idle_time);
      return incrementable(_range, _step);
  }
  return true;

`nBefore` and `nAfter` are the source-sequence sizes observed before and
after the idle sleep (a concurrent writer may have appended during it).  The
second output records whether the idle sleep was performed. -/
def iterativeActive (nBefore nAfter : ℕ) (r : RangeV) (step : ℤ) :
    Bool × Bool :=
  if incrementable nBefore r step then (true, false)
  else (incrementable nAfter r step, true)

/-! ### Executor run loop (std/basic_executor.hpp lines 147-154) -/

/-- Observable event of one `basic_executor::run()` call. -/
inductive ExEv where
  | start
  | exec (i : ℕ)
  | stop
deriving DecidableEq, Repr

/-- Way a `basic_executor::run()` call returned. -/
inductive Outcome where
  | normal
  | killed
  | raised
deriving DecidableEq, Repr

/-- Environment of one `run()` call:  `active i` is the result of the
`active()` test opening loop iteration `i`; `throws i` tells whether the
`i`-th `execute()` raises; `kill i` is the `_kill` flag value observed right
after the `i`-th `execute()` returns. -/
structure Behavior where
  active : ℕ → Bool
  throws : ℕ → Bool
  kill : ℕ → Bool

/-- Loop of `basic_executor::run()` (basic_executor.hpp lines 147-154)
starting at iteration `i`:

  while (active()) { execute(); if (_kill) return; }
  stop();

Fuel bounds the number of iterations interpreted; `none` means the loop was
still running when fuel ran out.  An `execute()` that raises propagates: the
trace ends at that `exec` event with outcome `raised` and `stop` is not
emitted. -/
def runFrom (b : Behavior) : ℕ → ℕ → Option (List ExEv × Outcome)
  | 0, _ => none
  | _fuel + 1, i =>
    if b.active i = false then some ([ExEv.stop], Outcome.normal)
    else if b.throws i then some ([ExEv.exec i], Outcome.raised)
    else if b.kill i then some ([ExEv.exec i], Outcome.killed)
    else
      match runFrom b _fuel (i + 1) with
      | none => none
      | some (tr, o) => some (ExEv.exec i :: tr, o)

/-- Full `basic_executor::run()` (basic_executor.hpp lines 147-154):
`start()` first, then the loop. -/
def basicExecutorRun (b : Behavior) (fuel : ℕ) : Option (List ExEv × Outcome) :=
  match runFrom b fuel 0 with
  | none => none
  | some (tr, o) => some (ExEv.start :: tr, o)

/-! ### Deadline transport event loop (std/tcp_client.hpp) -/

/-- Value of the member `_error` code: `ok` is a zero (success) code,
`wouldBlock` is `boost::asio::error::would_block` (operation still pending),
`fail` any other non-zero completion code. -/
inductive ErrC where
  | ok
  | wouldBlock
  | fail
deriving DecidableEq, Repr

/-- Error surfaced to the caller of a transport operation. -/
inductive TErr where
  | timedOut
  | aborted
  | failed
deriving DecidableEq, Repr

/-- Event delivered to `_io.run_one()` during a transport operation: either
the completion handler of the pending asynchronous I/O (with its completion
code), or the deadline-timer handler `check_timeout` (with whether the
deadline has passed: `_timer.expires_at() <= now`). -/
inductive NetEv where
  | ioComplete (e : ErrC)
  | timerFire (expired : Bool)
deriving DecidableEq, Repr

/-- Transport state visible to the claims: whether the socket is open and the
shared `_error` code. -/
structure NetState where
  socketOpen : Bool
  err : ErrC
deriving DecidableEq, Repr

/-- Loop of `tcp_client::run()` (tcp_client.hpp lines 294-300) together with
the installed handlers: `do { _io.run_one(); } while (_error == would_block)`.
Each event is handled in order:
* `timerFire true` runs `check_timeout` (lines 463-484) past its deadline:
  the socket is closed (`_socket.close(_error)`), `reset()` rearms the state
  (`_error = would_block`), and `boost::asio::error::timed_out` is thrown out
  of `run_one()` — the result carries the exception and later events are
  never processed;
* `timerFire false` rearms the timer (`async_wait`) and keeps looping;
* `ioComplete e` stores the completion code in `_error`; the loop exits as
  soon as `_error` differs from `would_block`. -/
def tcpRunLoop : NetState → List NetEv → NetState × Option TErr
  | s, [] => (s, none)
  | _s, NetEv.timerFire true :: _ =>
    ({ socketOpen := false, err := ErrC.wouldBlock }, some TErr.timedOut)
  | s, NetEv.timerFire false :: rest => tcpRunLoop s rest
  | s, NetEv.ioComplete e :: rest =>
    let s2 : NetState := { s with err := e }
    if e = ErrC.wouldBlock then tcpRunLoop s2 rest else (s2, none)

/-- Shared shape of the blocking transport operations `connect`, `read`,
`read_until` and `write` (tcp_client.hpp lines 304-459): `reset(timeout)`
arms the deadline and sets `_error = would_block`; the asynchronous operation
is started; `run()` blocks on the event loop; finally
`if (_error || !_socket.is_open()) throw system_error(_error ? _error :
operation_aborted);`.  The returned pair is the final transport state plus
the raised error, if any (`none` = the operation returned normally). -/
def transportOp (events : List NetEv) : NetState × Option TErr :=
  let s0 : NetState := { socketOpen := true, err := ErrC.wouldBlock }
  match tcpRunLoop s0 events with
  | (s, some e) => (s, some e)
  | (s, none) =>
    if s.err = ErrC.ok ∧ s.socketOpen = true then (s, none)
    else if s.err = ErrC.fail then (s, some TErr.failed)
    else (s, some TErr.aborted)

/-! ### Protocol session query (src/src/network/interface.cpp lines 51-80) -/

/-- Carriage-return byte. -/
def CRbyte : UInt8 := 13

/-- Line-feed byte. -/
def LFbyte : UInt8 := 10

/-- Bytes put on the wire by `Interface::query` (interface.cpp lines 54-63):
the query text followed by the four stop bytes CR LF CR LF. -/
def queryWrite (text : List UInt8) : List UInt8 :=
  text ++ [CRbyte, LFbyte, CRbyte, LFbyte]

/-- Buffer produced by `tcp_client::read_until('\n', timeout)` on a pending
peer byte stream: the shortest prefix through the first LF, plus `over`
additional already-buffered bytes that `boost::asio::async_read_until` is
permitted to leave in the dynamic buffer beyond the delimiter ("the dynamic
buffer may contain additional data beyond the delimiter").  `over = 0` is the
minimal read the spec describes ("up to and including the next line
terminator"). -/
def readUntilLF (stream : List UInt8) (over : ℕ) : List UInt8 :=
  match stream.findIdx? (fun c => c == LFbyte) with
  | some i => stream.take (i + 1 + over)
  | none => stream

/-- Response extraction of `Interface::query` (interface.cpp lines 65-71):

  if (buffer.size() > 4 && buffer[buffer.size() - 4] && buffer.back() == LF)
      *response = std::string(buffer.data(), buffer.size() - 4);

`none` means the guard failed and `*response` was left untouched
(`buffer[size - 4]` is a char tested for truthiness, i.e. non-NUL). -/
def stripResponse (buffer : List UInt8) : Option (List UInt8) :=
  if buffer.length > 4 ∧ buffer.getD (buffer.length - 4) 0 ≠ 0 ∧
      buffer.getLast? = some LFbyte then
    some (buffer.take (buffer.length - 4))
  else
    none

/-- Value-returning `Interface::query` (interface.cpp lines 76-80) applied to
a peer `stream`, with `over` extra bytes buffered past the first LF by the
underlying `read_until`: the response string starts empty and is only
assigned when the strip guard passes. -/
def interfaceQuery (stream : List UInt8) (over : ℕ) : List UInt8 :=
  match stripResponse (readUntilLF stream over) with
  | some r => r
  | none => []

end Trigno

namespace Trigno

/-! ## Theorems -/

/-! ### C10 — Sample construction from raw bytes -/

/-- C10: For every Sample constructed from a sensor id, a channel count
n ≥ 1 and a non-null raw byte pointer, all n channel values are populated
from the same first sizeof(float) bytes of the buffer (the source pointer is
never advanced between channels), so every channel of a multi-channel Sample
built from raw bytes holds the identical value of the first channel rather
than n consecutive values from the buffer. -/
theorem C10_sample_raw_channels_identical (n : ℕ) (raw : List UInt8) (ch : ℕ)
    (hn : 1 ≤ n) (hch : ch < n) :
    (sampleFromRaw n (some raw)).getD ch [] = floatBytes raw 0 ∧
    (sampleFromRaw n (some raw)).getD ch [] = (sampleFromRaw n (some raw)).getD 0 [] ∧
    floatBytes raw 0 = raw.take 4 := by
  have hrepl : sampleFromRaw n (some raw) = List.replicate n (floatBytes raw 0) := by
    show (List.range n).map (fun _ch => floatBytes raw 0) = _
    rw [show (fun _ch : ℕ => floatBytes raw 0) = Function.const ℕ (floatBytes raw 0) from rfl,
      List.map_const, List.length_range]
  have h0 : 0 < n := hn
  refine ⟨?_, ?_, by simp [floatBytes]⟩
  · rw [hrepl, List.getD_eq_getElem?_getD]
    simp [List.getElem?_replicate, hch]
  · rw [hrepl, List.getD_eq_getElem?_getD, List.getD_eq_getElem?_getD]
    simp [List.getElem?_replicate, hch, h0]

/-- Witness for C10 at n = 3 channels and an 12-byte buffer. -/
theorem C10_witness :
    (sampleFromRaw 3 (some [1, 2, 3, 4, 5, 6, 7, 8, 9, 10, 11, 12])).getD 2 [] =
      floatBytes [1, 2, 3, 4, 5, 6, 7, 8, 9, 10, 11, 12] 0 ∧
    (sampleFromRaw 3 (some [1, 2, 3, 4, 5, 6, 7, 8, 9, 10, 11, 12])).getD 2 [] =
      (sampleFromRaw 3 (some [1, 2, 3, 4, 5, 6, 7, 8, 9, 10, 11, 12])).getD 0 [] ∧
    floatBytes [1, 2, 3, 4, 5, 6, 7, 8, 9, 10, 11, 12] 0 =
      List.take 4 [1, 2, 3, 4, 5, 6, 7, 8, 9, 10, 11, 12] :=
  C10_sample_raw_channels_identical 3 [1, 2, 3, 4, 5, 6, 7, 8, 9, 10, 11, 12] 2
    (by decide) (by decide)

/-! ### C2 — Data-client timestamping -/

/-- C2 (code bug evidence): the claim states that both read overloads stamp
`frame_counter × (1 / sample_rate)`.  The value-returning overload does; the
in-place overload stamps `frame_counter × sample_rate` instead.  At sample
rate 2 Hz and counter value 1 the in-place overload produces timestamp 2,
where the claim (and the value-returning overload) gives 1/2.  Both overloads
do post-increment the counter by exactly one. -/
theorem C2_inplace_stamp_diverges :
    readStamp 0 2 = (0, 1) ∧
    readStamp 1 2 = (1 / 2, 2) ∧
    readStampInPlace 1 2 = (2, 2) ∧
    (readStampInPlace 1 2).1 ≠ (1 : ℚ) * (1 / 2) := by
  refine ⟨?_, ?_, ?_, ?_⟩ <;> norm_num [readStamp, readStampInPlace]

/-! ### C4 — Time-to-sample-count conversion -/

/-- Evaluation lemma: the `sqrt(pow(x, 2))` composition computes |x|, and the
`unsigned int` conversion of the nonnegative result is its floor. -/
theorem sampleCount_eq_floor_abs (duration sampleRate : ℚ) :
    sampleCount duration sampleRate = (⌊|duration * sampleRate|⌋).toNat := by
  unfold sampleCount floatToUInt
  rw [pow_two, Rat.sqrt_eq]

/-- C4 (counterexample): the claim states the conversion rounds to the
nearest integer, so that 0.9 s at 1 Hz yields 1 element.  The code converts
`sqrt(pow(0.9 × 1, 2))` to `unsigned int`, which truncates: it yields 0. -/
theorem C4_counterexample :
    sampleCount (9 / 10) 1 = 0 ∧
    sampleCountSpec (9 / 10) 1 = 1 ∧
    sampleCount (9 / 10) 1 ≠ sampleCountSpec (9 / 10) 1 := by
  have habs : |(9 / 10 : ℚ) * 1| = 9 / 10 := by norm_num
  have h1 : sampleCount (9 / 10) 1 = 0 := by
    rw [sampleCount_eq_floor_abs, habs,
      show ⌊(9 / 10 : ℚ)⌋ = 0 from Int.floor_eq_iff.mpr (by norm_num)]
    rfl
  have h2 : sampleCountSpec (9 / 10) 1 = 1 := by
    unfold sampleCountSpec
    rw [round_eq, habs,
      show ⌊(9 / 10 : ℚ) + 1 / 2⌋ = 1 from Int.floor_eq_iff.mpr (by norm_num)]
    rfl
  exact ⟨h1, h2, by rw [h1, h2]; decide⟩

/-- C4 (amended): the window and overlap arguments given in physical time
units are converted to element counts by truncating |duration × sample_rate|
toward zero (the floor of the absolute product), not by rounding to the
nearest integer. -/
theorem C4_conversion_truncates (duration sampleRate : ℚ) :
    sampleCount duration sampleRate = (⌊|duration * sampleRate|⌋).toNat :=
  sampleCount_eq_floor_abs duration sampleRate

/-- Witness for C4 amended theorem at duration 3/2 s, 2 Hz: 3 elements. -/
theorem C4_witness :
    sampleCount (3 / 2) 2 = (⌊|(3 / 2 : ℚ) * 2|⌋).toNat :=
  C4_conversion_truncates (3 / 2) 2

/-! ### C5 — Range width clamping and advancing -/

/-- C5: for a Range of width w with overlap o < w over a container of n
elements, advancing by step s moves the start by exactly s − o elements
whenever the target stays inside the container; moving past either end
clamps (start pinned to the end, width clamped to the elements that remain)
instead of raising; and construction via `begin` clamps a width larger than
the container to the container size. -/
theorem C5_range_advance (n : ℕ) (r : RangeV) (step : ℤ)
    (ho : r.overlap < r.width) :
    (0 ≤ (r.start : ℤ) + step - r.overlap → (r.start : ℤ) + step - r.overlap ≤ n →
      ((r.advance n step).start : ℤ) = (r.start : ℤ) + step - r.overlap) ∧
    ((n : ℤ) < (r.start : ℤ) + step - r.overlap →
      (r.advance n step).start = n ∧ (r.advance n step).width = 0) ∧
    ((r.start : ℤ) + step - r.overlap < 0 → (r.advance n step).start = 0) ∧
    (r.advance n step).start + (r.advance n step).width ≤ n ∧
    (r.advance n step).width ≤ r.width ∧
    (beginRange n r.width r.overlap).width = min r.width n := by
  have hadv : r.advance n step =
      { start := (max 0 (min ((r.start : ℤ) + step -
          max 0 (min (r.overlap : ℤ) ((r.width : ℤ) - 1))) (n : ℤ))).toNat,
        width := min r.width (n - (max 0 (min ((r.start : ℤ) + step -
          max 0 (min (r.overlap : ℤ) ((r.width : ℤ) - 1))) (n : ℤ))).toNat),
        overlap := r.overlap } := rfl
  have hov : max 0 (min (r.overlap : ℤ) ((r.width : ℤ) - 1)) = (r.overlap : ℤ) := by
    omega
  rw [hadv, hov]
  refine ⟨?_, ?_, ?_, ?_, ?_, ?_⟩
  · intro h1 h2; simp only; omega
  · intro h1; simp only; omega
  · intro h1; simp only; omega
  · simp only; omega
  · simp only; omega
  · simp only [beginRange]; split <;> omega

/-- Witness for C5: container of 5 elements, range of width 2 and overlap 1
at start 1, advanced by 3: start moves to 1 + 3 − 1 = 3; advanced by 10 it
clamps to start 5, width 0; and begin-construction with width 9 clamps to 5. -/
theorem C5_witness :
    (0 ≤ ((1 : ℕ) : ℤ) + 3 - (1 : ℕ) → ((1 : ℕ) : ℤ) + 3 - (1 : ℕ) ≤ (5 : ℕ) →
      (((RangeV.mk 1 2 1).advance 5 3).start : ℤ) = ((1 : ℕ) : ℤ) + 3 - (1 : ℕ)) ∧
    (((5 : ℕ) : ℤ) < ((1 : ℕ) : ℤ) + 3 - (1 : ℕ) →
      ((RangeV.mk 1 2 1).advance 5 3).start = 5 ∧
      ((RangeV.mk 1 2 1).advance 5 3).width = 0) ∧
    (((1 : ℕ) : ℤ) + 3 - (1 : ℕ) < 0 → ((RangeV.mk 1 2 1).advance 5 3).start = 0) ∧
    ((RangeV.mk 1 2 1).advance 5 3).start + ((RangeV.mk 1 2 1).advance 5 3).width ≤ 5 ∧
    ((RangeV.mk 1 2 1).advance 5 3).width ≤ (RangeV.mk 1 2 1).width ∧
    (beginRange 5 (RangeV.mk 1 2 1).width (RangeV.mk 1 2 1).overlap).width =
      min (RangeV.mk 1 2 1).width 5 :=
  C5_range_advance 5 (RangeV.mk 1 2 1) 3 (by decide)

/-! ### C8 — Iterative idle-retry policy -/

/-- C8: whenever the member Range cannot be advanced by the configured step,
`active()` sleeps for the idle duration and re-checks advanceability exactly
once, returning the result of that second check; it never reports inactive
without having slept (so the engine reaches active() = false only after one
idle-wait cycle with no new data, never immediately), and when the range is
advanceable it returns true at once without sleeping. -/
theorem C8_iterative_active (nBefore nAfter : ℕ) (r : RangeV) (step : ℤ) :
    (incrementable nBefore r step = true →
      iterativeActive nBefore nAfter r step = (true, false)) ∧
    (incrementable nBefore r step = false →
      iterativeActive nBefore nAfter r step = (incrementable nAfter r step, true)) ∧
    (∀ slept, iterativeActive nBefore nAfter r step = (false, slept) → slept = true) := by
  unfold iterativeActive
  cases h : incrementable nBefore r step <;>
    simp [h]

/-- Witness for C8, the end-to-end scenario: a width-1 window at position 4
of a 5-element sequence whose writer has stopped (size still 5 after the idle
sleep) is not advanceable, so active() = (false, slept = true) — inactive is
reached only after the idle-wait re-check, while with one more element
appended during the sleep the re-check returns true. -/
theorem C8_witness :
    (incrementable 5 (RangeV.mk 4 1 0) 1 = false →
      iterativeActive 5 5 (RangeV.mk 4 1 0) 1 =
        (incrementable 5 (RangeV.mk 4 1 0) 1, true)) ∧
    (incrementable 5 (RangeV.mk 4 1 0) 1 = false →
      iterativeActive 5 6 (RangeV.mk 4 1 0) 1 =
        (incrementable 6 (RangeV.mk 4 1 0) 1, true)) ∧
    incrementable 5 (RangeV.mk 4 1 0) 1 = false ∧
    incrementable 6 (RangeV.mk 4 1 0) 1 = true :=
  ⟨(C8_iterative_active 5 5 (RangeV.mk 4 1 0) 1).2.1,
   (C8_iterative_active 5 6 (RangeV.mk 4 1 0) 1).2.1,
   by decide, by decide⟩


/-! ### C3 — Sequence append checks -/

/-- Step equation of `Sequence.add` on a non-empty sequence. -/
theorem Sequence.add_of_last_some (s : Sequence) (f : Stamped)
    (seq ms : Bool) (b : Stamped) (h : s.getLast? = some b) :
    Sequence.add s f seq ms =
      if seq = true ∧ f.key ≤ b.key then Except.error AddError.ordering
      else if ms = true ∧ b.data.sensors ≠ f.data.sensors then
        Except.error AddError.sensorMismatch
      else Except.ok (s ++ [f]) := by
  unfold Sequence.add
  rw [h]

/-- Step equation of `Sequence.add` on an empty sequence. -/
theorem Sequence.add_of_last_none (s : Sequence) (f : Stamped)
    (seq ms : Bool) (h : s.getLast? = none) :
    Sequence.add s f seq ms = Except.ok (s ++ [f]) := by
  unfold Sequence.add
  rw [h]

/-- C3: `add(f, sequential, match_sensors)` raises an invalid-argument error
exactly when the sequence is non-empty and either (sequential is set and f's
timestamp is not strictly greater than the last element's) or (match_sensors
is set and f's sensor list differs from the last element's); in every other
case it appends f at the back and raises nothing.  The source throws before
`emplace_back`, so an error leaves the sequence unchanged, which the
`Except.error` result (carrying no sequence) reflects. -/
theorem C3_add_checks (s : Sequence) (f : Stamped) (seq ms : Bool) :
    ((∃ e, Sequence.add s f seq ms = Except.error e) ↔
      ∃ b, s.getLast? = some b ∧
        ((seq = true ∧ ¬ b.key < f.key) ∨
         (ms = true ∧ b.data.sensors ≠ f.data.sensors))) ∧
    (∀ r, Sequence.add s f seq ms = Except.ok r → r = s ++ [f]) := by
  cases h : s.getLast? with
  | none =>
    rw [Sequence.add_of_last_none s f seq ms h]
    simp [h]
  | some b =>
    rw [Sequence.add_of_last_some s f seq ms b h]
    by_cases h1 : seq = true ∧ f.key ≤ b.key
    · rw [if_pos h1]
      refine ⟨⟨fun _ => ⟨b, rfl, Or.inl ⟨h1.1, not_lt.mpr h1.2⟩⟩,
        fun _ => ⟨AddError.ordering, rfl⟩⟩, ?_⟩
      intro r hr
      cases hr
    · rw [if_neg h1]
      by_cases h2 : ms = true ∧ b.data.sensors ≠ f.data.sensors
      · rw [if_pos h2]
        refine ⟨⟨fun _ => ⟨b, rfl, Or.inr h2⟩,
          fun _ => ⟨AddError.sensorMismatch, rfl⟩⟩, ?_⟩
        intro r hr
        cases hr
      · rw [if_neg h2]
        refine ⟨⟨?_, ?_⟩, ?_⟩
        · rintro ⟨e, he⟩
          cases he
        · rintro ⟨b2, hb2, hcond⟩
          injection hb2 with hb2
          subst hb2
          rcases hcond with ⟨hseq, hnlt⟩ | ⟨hms, hne⟩
          · exact absurd ⟨hseq, not_lt.mp hnlt⟩ h1
          · exact absurd ⟨hms, hne⟩ h2
        · intro r hr
          cases hr
          rfl

/-- Witness for C3: one-element sequence with key 1, frame with key 2 and a
matching (empty) sensor list, both checks enabled (the append succeeds). -/
theorem C3_witness :
    ((∃ e, Sequence.add [Stamped.mk 1 (Frame.mk [])] (Stamped.mk 2 (Frame.mk []))
        true true = Except.error e) ↔
      ∃ b, [Stamped.mk 1 (Frame.mk [])].getLast? = some b ∧
        ((true = true ∧ ¬ b.key < (Stamped.mk 2 (Frame.mk [])).key) ∨
         (true = true ∧
          b.data.sensors ≠ (Stamped.mk 2 (Frame.mk [])).data.sensors))) ∧
    (∀ r, Sequence.add [Stamped.mk 1 (Frame.mk [])] (Stamped.mk 2 (Frame.mk []))
        true true = Except.ok r →
      r = [Stamped.mk 1 (Frame.mk [])] ++ [Stamped.mk 2 (Frame.mk [])]) :=
  C3_add_checks [Stamped.mk 1 (Frame.mk [])] (Stamped.mk 2 (Frame.mk [])) true true

/-! ### C6 — Deadline transport timeout -/

/-- Helper: the event loop hitting an expired deadline-timer event after any
number of not-yet-expired timer events closes the socket and raises the
timeout error, regardless of events queued afterwards. -/
theorem tcpRunLoop_timeout (s : NetState) (pre rest : List NetEv)
    (hpre : ∀ e ∈ pre, e = NetEv.timerFire false) :
    tcpRunLoop s (pre ++ NetEv.timerFire true :: rest) =
      ({ socketOpen := false, err := ErrC.wouldBlock }, some TErr.timedOut) := by
  induction pre with
  | nil => rfl
  | cons e pre ih =>
    have he : e = NetEv.timerFire false := hpre e (List.mem_cons_self e pre)
    subst he
    exact ih fun e2 he2 => hpre e2 (List.mem_cons_of_mem _ he2)

/-- C6: a transport operation whose deadline timer fires (deadline reached)
before the asynchronous I/O completes closes the socket forcibly (the
transport is left disconnected), raises the timeout error to the caller, and
returns at that event: the result is independent of whatever events follow,
so the error is neither swallowed nor retried.  The `pre` events are the
timer wakeups before the deadline; `rest` is everything after (including any
late I/O completion). -/
theorem C6_timeout_closes_and_raises (pre rest : List NetEv)
    (hpre : ∀ e ∈ pre, e = NetEv.timerFire false) :
    transportOp (pre ++ NetEv.timerFire true :: rest) =
      ({ socketOpen := false, err := ErrC.wouldBlock }, some TErr.timedOut) ∧
    (transportOp (pre ++ NetEv.timerFire true :: rest)).1.socketOpen = false ∧
    (transportOp (pre ++ NetEv.timerFire true :: rest)).2 = some TErr.timedOut := by
  have h := tcpRunLoop_timeout ⟨true, ErrC.wouldBlock⟩ pre rest hpre
  simp only [transportOp]
  rw [h]
  exact ⟨rfl, rfl, rfl⟩

/-- Witness for C6: one early timer wakeup, then the deadline fires while a
successful I/O completion is still queued behind it. -/
theorem C6_witness :
    transportOp ([NetEv.timerFire false] ++
        NetEv.timerFire true :: [NetEv.ioComplete ErrC.ok]) =
      ({ socketOpen := false, err := ErrC.wouldBlock }, some TErr.timedOut) ∧
    (transportOp ([NetEv.timerFire false] ++
        NetEv.timerFire true :: [NetEv.ioComplete ErrC.ok])).1.socketOpen = false ∧
    (transportOp ([NetEv.timerFire false] ++
        NetEv.timerFire true :: [NetEv.ioComplete ErrC.ok])).2 = some TErr.timedOut :=
  C6_timeout_closes_and_raises [NetEv.timerFire false] [NetEv.ioComplete ErrC.ok]
    (by decide)


/-! ### C7 — Executor run loop -/

/-- Helper: prepending the event at index `i` to a block of shifted events
re-indexes the block. -/
theorem range_map_shift (f : ℕ → ExEv) (i n : ℕ) :
    f i :: (List.range n).map (fun j => f (i + 1 + j)) =
      (List.range (n + 1)).map (fun j => f (i + j)) := by
  rw [List.range_succ_eq_map, List.map_cons, List.map_map]
  refine congrArg₂ List.cons (by simp) ?_
  refine List.map_congr_left fun a _ => ?_
  show f (i + 1 + a) = f (i + (a + 1))
  congr 1
  omega

/-- Helper: shape of the `run()` loop started at iteration `i`: some number
`n` of clean `execute()` calls, then one of the three exits. -/
theorem runFrom_spec (b : Behavior) (fuel : ℕ) :
    ∀ i tr o, runFrom b fuel i = some (tr, o) →
    ∃ n, (∀ j, j < n →
        b.active (i + j) = true ∧ b.throws (i + j) = false ∧ b.kill (i + j) = false) ∧
      ((o = Outcome.normal ∧ b.active (i + n) = false ∧
          tr = (List.range n).map (fun j => ExEv.exec (i + j)) ++ [ExEv.stop]) ∨
       (o = Outcome.killed ∧ b.active (i + n) = true ∧ b.throws (i + n) = false ∧
          b.kill (i + n) = true ∧
          tr = (List.range (n + 1)).map (fun j => ExEv.exec (i + j))) ∨
       (o = Outcome.raised ∧ b.active (i + n) = true ∧ b.throws (i + n) = true ∧
          tr = (List.range (n + 1)).map (fun j => ExEv.exec (i + j)))) := by
  induction fuel with
  | zero =>
    intro i tr o h
    cases h
  | succ fuel ih =>
    intro i tr o h
    cases ha : b.active i with
    | false =>
      simp only [runFrom, ha, if_true, if_pos rfl] at h
      obtain ⟨htr, ho⟩ := Prod.mk.injEq .. ▸ Option.some.inj h
      refine ⟨0, fun j hj => absurd hj (Nat.not_lt_zero j), Or.inl ?_⟩
      refine ⟨ho.symm, ?_, ?_⟩
      · simpa using ha
      · simp [htr.symm]
    | true =>
      have hne : ¬ (b.active i = false) := by simp [ha]
      cases ht : b.throws i with
      | true =>
        simp only [runFrom, if_neg hne, ht, if_true] at h
        obtain ⟨htr, ho⟩ := Prod.mk.injEq .. ▸ Option.some.inj h
        refine ⟨0, fun j hj => absurd hj (Nat.not_lt_zero j),
          Or.inr (Or.inr ⟨ho.symm, ?_, ?_, ?_⟩)⟩
        · simpa using ha
        · simpa using ht
        · rw [← htr]
          rfl
      | false =>
        cases hk : b.kill i with
        | true =>
          simp only [runFrom, if_neg hne, ht, Bool.false_eq_true, if_false, hk,
            if_true] at h
          obtain ⟨htr, ho⟩ := Prod.mk.injEq .. ▸ Option.some.inj h
          refine ⟨0, fun j hj => absurd hj (Nat.not_lt_zero j),
            Or.inr (Or.inl ⟨ho.symm, ?_, ?_, ?_, ?_⟩)⟩
          · simpa using ha
          · simpa using ht
          · simpa using hk
          · rw [← htr]
            rfl
        | false =>
          simp only [runFrom, if_neg hne, ht, Bool.false_eq_true, if_false, hk] at h
          cases hrec : runFrom b fuel (i + 1) with
          | none =>
            rw [hrec] at h
            cases h
          | some p =>
            obtain ⟨tr2, o2⟩ := p
            rw [hrec] at h
            obtain ⟨htr, ho⟩ := Prod.mk.injEq .. ▸ Option.some.inj h
            obtain ⟨n, hall, hcase⟩ := ih (i + 1) tr2 o2 hrec
            refine ⟨n + 1, ?_, ?_⟩
            · intro j hj
              cases j with
              | zero => simpa using ⟨ha, ht, hk⟩
              | succ k =>
                have hkk := hall k (by omega)
                have e1 : i + (k + 1) = (i + 1) + k := by omega
                rw [e1]
                exact hkk
            · have e2 : i + (n + 1) = (i + 1) + n := by omega
              rcases hcase with ⟨ho2, hact, htr2⟩ | ⟨ho2, hact, hth2, hki2, htr2⟩ |
                ⟨ho2, hact, hth2, htr2⟩
              · refine Or.inl ⟨ho2 ▸ ho.symm, ?_, ?_⟩
                · rw [e2]
                  exact hact
                · rw [← htr, htr2, ← List.cons_append,
                    range_map_shift ExEv.exec i n]
              · refine Or.inr (Or.inl ⟨ho2 ▸ ho.symm, ?_, ?_, ?_, ?_⟩)
                · rw [e2]
                  exact hact
                · rw [e2]
                  exact hth2
                · rw [e2]
                  exact hki2
                · rw [← htr, htr2, range_map_shift ExEv.exec i (n + 1)]
              · refine Or.inr (Or.inr ⟨ho2 ▸ ho.symm, ?_, ?_, ?_⟩)
                · rw [e2]
                  exact hact
                · rw [e2]
                  exact hth2
                · rw [← htr, htr2, range_map_shift ExEv.exec i (n + 1)]

/-- C7: any terminating `run()` performs exactly `start()`, then some number
n of clean `execute()` calls (active() true, no throw, kill unobserved), and
then exits one of three ways: active() = false at iteration n and a single
`stop()` at the very end (normal); the kill flag observed right after the
n-th execute() and an immediate return with `stop()` never called (killed);
or the n-th `execute()` raising, the exception propagating out with the loop
terminated and `stop()` never called (raised — the engine does not swallow
it). -/
theorem C7_run_loop_shape (b : Behavior) (fuel : ℕ) (tr : List ExEv)
    (o : Outcome) (h : basicExecutorRun b fuel = some (tr, o)) :
    ∃ n, (∀ i, i < n →
        b.active i = true ∧ b.throws i = false ∧ b.kill i = false) ∧
      ((o = Outcome.normal ∧ b.active n = false ∧
          tr = ExEv.start :: (List.range n).map ExEv.exec ++ [ExEv.stop]) ∨
       (o = Outcome.killed ∧ b.active n = true ∧ b.throws n = false ∧
          b.kill n = true ∧
          tr = ExEv.start :: (List.range (n + 1)).map ExEv.exec) ∨
       (o = Outcome.raised ∧ b.active n = true ∧ b.throws n = true ∧
          tr = ExEv.start :: (List.range (n + 1)).map ExEv.exec)) ∧
      (o ≠ Outcome.normal → ExEv.stop ∉ tr) ∧
      (o = Outcome.normal → tr.count ExEv.stop = 1) ∧
      tr.head? = some ExEv.start := by
  cases hrec : runFrom b fuel 0 with
  | none =>
    unfold basicExecutorRun at h
    rw [hrec] at h
    cases h
  | some p =>
    obtain ⟨tr0, o0⟩ := p
    unfold basicExecutorRun at h
    rw [hrec] at h
    obtain ⟨htr, ho⟩ := Prod.mk.injEq .. ▸ Option.some.inj h
    obtain ⟨n, hall, hcase⟩ := runFrom_spec b fuel 0 tr0 o0 hrec
    simp only [Nat.zero_add] at hall hcase
    refine ⟨n, hall, ?_, ?_, ?_, ?_⟩
    · rcases hcase with ⟨ho2, hact, htr2⟩ | ⟨ho2, hact, hth2, hki2, htr2⟩ |
        ⟨ho2, hact, hth2, htr2⟩
      · refine Or.inl ⟨ho2 ▸ ho.symm, hact, ?_⟩
        rw [← htr, htr2]
        rfl
      · exact Or.inr (Or.inl ⟨ho2 ▸ ho.symm, hact, hth2, hki2, by rw [← htr, htr2]⟩)
      · exact Or.inr (Or.inr ⟨ho2 ▸ ho.symm, hact, hth2, by rw [← htr, htr2]⟩)
    · intro hno
      rcases hcase with ⟨ho2, hact, htr2⟩ | ⟨ho2, hact, hth2, hki2, htr2⟩ |
        ⟨ho2, hact, hth2, htr2⟩
      · exact absurd (ho2 ▸ ho.symm) hno
      · rw [← htr, htr2]
        simp
      · rw [← htr, htr2]
        simp
    · intro hyes
      rcases hcase with ⟨ho2, hact, htr2⟩ | ⟨ho2, hact, hth2, hki2, htr2⟩ |
        ⟨ho2, hact, hth2, htr2⟩
      · have hnot : ExEv.stop ∉
            ExEv.start :: (List.range n).map (fun j => ExEv.exec j) := by
          simp
        rw [← htr, htr2, ← List.cons_append, List.count_append,
          List.count_eq_zero.mpr hnot]
        rfl
      · exact absurd (ho2 ▸ ho.symm) (by rw [hyes]; intro hh; cases hh)
      · exact absurd (ho2 ▸ ho.symm) (by rw [hyes]; intro hh; cases hh)
    · rw [← htr]
      rfl

/-- Witness for C7: an executor active for 2 iterations that never throws
and is never killed runs start, exec 0, exec 1, stop and returns normally. -/
theorem C7_witness :
    basicExecutorRun
        (Behavior.mk (fun i => decide (i < 2)) (fun _ => false) (fun _ => false)) 5 =
      some ([ExEv.start, ExEv.exec 0, ExEv.exec 1, ExEv.stop], Outcome.normal) ∧
    ∃ n, (∀ i, i < n →
        (Behavior.mk (fun i => decide (i < 2)) (fun _ => false)
          (fun _ => false)).active i = true ∧
        (Behavior.mk (fun i => decide (i < 2)) (fun _ => false)
          (fun _ => false)).throws i = false ∧
        (Behavior.mk (fun i => decide (i < 2)) (fun _ => false)
          (fun _ => false)).kill i = false) ∧
      ((Outcome.normal = Outcome.normal ∧
          (Behavior.mk (fun i => decide (i < 2)) (fun _ => false)
            (fun _ => false)).active n = false ∧
          [ExEv.start, ExEv.exec 0, ExEv.exec 1, ExEv.stop] =
            ExEv.start :: (List.range n).map ExEv.exec ++ [ExEv.stop]) ∨
       (Outcome.normal = Outcome.killed ∧
          (Behavior.mk (fun i => decide (i < 2)) (fun _ => false)
            (fun _ => false)).active n = true ∧
          (Behavior.mk (fun i => decide (i < 2)) (fun _ => false)
            (fun _ => false)).throws n = false ∧
          (Behavior.mk (fun i => decide (i < 2)) (fun _ => false)
            (fun _ => false)).kill n = true ∧
          [ExEv.start, ExEv.exec 0, ExEv.exec 1, ExEv.stop] =
            ExEv.start :: (List.range (n + 1)).map ExEv.exec) ∨
       (Outcome.normal = Outcome.raised ∧
          (Behavior.mk (fun i => decide (i < 2)) (fun _ => false)
            (fun _ => false)).active n = true ∧
          (Behavior.mk (fun i => decide (i < 2)) (fun _ => false)
            (fun _ => false)).throws n = true ∧
          [ExEv.start, ExEv.exec 0, ExEv.exec 1, ExEv.stop] =
            ExEv.start :: (List.range (n + 1)).map ExEv.exec)) ∧
      (Outcome.normal ≠ Outcome.normal →
        ExEv.stop ∉ [ExEv.start, ExEv.exec 0, ExEv.exec 1, ExEv.stop]) ∧
      (Outcome.normal = Outcome.normal →
        [ExEv.start, ExEv.exec 0, ExEv.exec 1, ExEv.stop].count ExEv.stop = 1) ∧
      [ExEv.start, ExEv.exec 0, ExEv.exec 1, ExEv.stop].head? = some ExEv.start :=
  ⟨rfl, C7_run_loop_shape
    (Behavior.mk (fun i => decide (i < 2)) (fun _ => false) (fun _ => false)) 5
    [ExEv.start, ExEv.exec 0, ExEv.exec 1, ExEv.stop] Outcome.normal rfl⟩


/-! ### C9 — Protocol session query -/

/-- Helper: position of the first LF in a payload free of LF followed by the
doubled CR LF termination. -/
theorem findIdx_first_LF (p : List UInt8) (hLF : LFbyte ∉ p) :
    (p ++ [CRbyte, LFbyte, CRbyte, LFbyte]).findIdx? (fun c => c == LFbyte) =
      some (1 + p.length) := by
  rw [List.findIdx?_append]
  have h1 : p.findIdx? (fun c => c == LFbyte) = none := by
    rw [List.findIdx?_eq_none_iff]
    intro x hx
    exact beq_eq_false_iff_ne.mpr fun hEq => hLF (hEq ▸ hx)
  have h2 : [CRbyte, LFbyte, CRbyte, LFbyte].findIdx? (fun c => c == LFbyte) =
      some 1 := by decide
  rw [h1, h2]
  rfl

/-- Helper: success case of the strip guard. -/
theorem stripResponse_eq (buffer : List UInt8) (h4 : buffer.length > 4)
    (hnz : buffer.getD (buffer.length - 4) 0 ≠ 0)
    (hlast : buffer.getLast? = some LFbyte) :
    stripResponse buffer = some (buffer.take (buffer.length - 4)) := by
  unfold stripResponse
  rw [if_pos ⟨h4, hnz, hlast⟩]

/-- C9 (counterexample): for payload "ABCDE" terminated by CR LF CR LF, a
read that stops at the first line feed (the reading the claim itself
describes) yields the buffer "ABCDE\r\n"; stripping four bytes from it
returns "ABC", not the payload "ABCDE" — two payload bytes are stripped too.
The write side of the claim does hold: the wire bytes are the query text
followed by CR LF CR LF. -/
theorem C9_counterexample :
    interfaceQuery ([65, 66, 67, 68, 69] ++ [CRbyte, LFbyte, CRbyte, LFbyte]) 0 =
      [65, 66, 67] ∧
    ([65, 66, 67] : List UInt8) ≠ [65, 66, 67, 68, 69] ∧
    queryWrite [65, 66, 67, 68, 69] =
      [65, 66, 67, 68, 69] ++ [CRbyte, LFbyte, CRbyte, LFbyte] := by
  refine ⟨by decide, by decide, by decide⟩

/-- C9 (amended): `query` writes the text followed by the four termination
bytes CR LF CR LF.  On the read side the response equals the payload exactly
only when the read buffer contains the full four-byte termination (two bytes
beyond the first line feed, which `async_read_until` may or may not have
buffered); with the minimal read, ending at the first line feed, the
four-byte strip also removes the last two payload bytes.  Payload assumed
LF-free (else the read ends earlier) and NUL-free (the guard tests the byte
four from the end for truthiness) and longer than two bytes. -/
theorem C9_amended_strip (p : List UInt8) (hlen : 2 < p.length)
    (hLF : LFbyte ∉ p) (h0 : (0 : UInt8) ∉ p) :
    queryWrite p = p ++ [CRbyte, LFbyte, CRbyte, LFbyte] ∧
    interfaceQuery (p ++ [CRbyte, LFbyte, CRbyte, LFbyte]) 2 = p ∧
    interfaceQuery (p ++ [CRbyte, LFbyte, CRbyte, LFbyte]) 0 =
      p.take (p.length - 2) := by
  have hfull : readUntilLF (p ++ [CRbyte, LFbyte, CRbyte, LFbyte]) 2 =
      p ++ [CRbyte, LFbyte, CRbyte, LFbyte] := by
    unfold readUntilLF
    rw [findIdx_first_LF p hLF]
    show List.take (1 + p.length + 1 + 2) (p ++ [CRbyte, LFbyte, CRbyte, LFbyte]) =
      p ++ [CRbyte, LFbyte, CRbyte, LFbyte]
    rw [List.take_append_eq_append_take, List.take_of_length_le (by omega),
      show 1 + p.length + 1 + 2 - p.length = 4 by omega]
    rfl
  have hmin : readUntilLF (p ++ [CRbyte, LFbyte, CRbyte, LFbyte]) 0 =
      p ++ [CRbyte, LFbyte] := by
    unfold readUntilLF
    rw [findIdx_first_LF p hLF]
    show List.take (1 + p.length + 1 + 0) (p ++ [CRbyte, LFbyte, CRbyte, LFbyte]) =
      p ++ [CRbyte, LFbyte]
    rw [List.take_append_eq_append_take, List.take_of_length_le (by omega),
      show 1 + p.length + 1 + 0 - p.length = 2 by omega]
    rfl
  have hlen4 : (p ++ [CRbyte, LFbyte, CRbyte, LFbyte]).length = p.length + 4 := by
    simp
  have hlen2 : (p ++ [CRbyte, LFbyte]).length = p.length + 2 := by
    simp
  refine ⟨rfl, ?_, ?_⟩
  · show (match stripResponse (readUntilLF (p ++ [CRbyte, LFbyte, CRbyte, LFbyte]) 2)
        with | some r => r | none => []) = p
    rw [hfull, stripResponse_eq _ ?_ ?_ ?_]
    · rw [hlen4, show p.length + 4 - 4 = p.length from by omega,
        List.take_append_eq_append_take, List.take_of_length_le (le_refl p.length),
        Nat.sub_self, List.take_zero, List.append_nil]
    · rw [hlen4]
      omega
    · rw [hlen4, show p.length + 4 - 4 = p.length from by omega,
        List.getD_eq_getElem?_getD,
        List.getElem?_append_right (le_refl p.length), Nat.sub_self]
      decide
    · rw [show p ++ [CRbyte, LFbyte, CRbyte, LFbyte] =
          (p ++ [CRbyte, LFbyte, CRbyte]) ++ [LFbyte] from by simp,
        List.getLast?_concat]
  · show (match stripResponse (readUntilLF (p ++ [CRbyte, LFbyte, CRbyte, LFbyte]) 0)
        with | some r => r | none => []) = p.take (p.length - 2)
    rw [hmin, stripResponse_eq _ ?_ ?_ ?_]
    · rw [hlen2, show p.length + 2 - 4 = p.length - 2 from by omega,
        List.take_append_eq_append_take,
        show p.length - 2 - p.length = 0 from by omega,
        List.take_zero, List.append_nil]
    · rw [hlen2]
      omega
    · rw [hlen2, show p.length + 2 - 4 = p.length - 2 from by omega,
        List.getD_eq_getElem?_getD,
        List.getElem?_append_left (show p.length - 2 < p.length from by omega),
        List.getElem?_eq_getElem (show p.length - 2 < p.length from by omega)]
      intro hzero
      exact h0 (by rw [← hzero]; exact List.getElem_mem _)
    · rw [show p ++ [CRbyte, LFbyte] = (p ++ [CRbyte]) ++ [LFbyte] from by simp,
        List.getLast?_concat]

/-- Witness for C9 amended theorem with payload "ABCDE". -/
theorem C9_witness :
    queryWrite [65, 66, 67, 68, 69] =
      [65, 66, 67, 68, 69] ++ [CRbyte, LFbyte, CRbyte, LFbyte] ∧
    interfaceQuery ([65, 66, 67, 68, 69] ++ [CRbyte, LFbyte, CRbyte, LFbyte]) 2 =
      [65, 66, 67, 68, 69] ∧
    interfaceQuery ([65, 66, 67, 68, 69] ++ [CRbyte, LFbyte, CRbyte, LFbyte]) 0 =
      List.take ((([65, 66, 67, 68, 69] : List UInt8)).length - 2)
        [65, 66, 67, 68, 69] :=
  C9_amended_strip [65, 66, 67, 68, 69] (by decide) (by decide) (by decide)


/-! ### C1 — Binary-search lower-bound lookup -/

/-- Helper: in a `≤`-pairwise-sorted key list, values are monotone in the
position. -/
theorem pairwise_le_get (keys : List ℚ) (hs : List.Pairwise (· ≤ ·) keys)
    (i j : ℕ) (hi : i < keys.length) (hj : j < keys.length) (hij : i ≤ j) :
    keys.get ⟨i, hi⟩ ≤ keys.get ⟨j, hj⟩ := by
  rcases Nat.lt_or_ge i j with hlt | hge
  · exact List.pairwise_iff_get.mp hs ⟨i, hi⟩ ⟨j, hj⟩ (Fin.mk_lt_mk.mpr hlt)
  · have : i = j := by omega
    subst this
    exact le_refl _

/-- Helper: characterization of the half-interval search on a sorted key
list — every position below the result holds a key `< t`, every position at
or above it holds a key `≥ t`, and the result never exceeds the size. -/
theorem lowerBoundFrom_char (keys : List ℚ) (t : ℚ)
    (hsort : List.Pairwise (· ≤ ·) keys) :
    ∀ len first, first + len ≤ keys.length →
    (∀ j (hj : j < keys.length), j < first → keys.get ⟨j, hj⟩ < t) →
    (∀ j (hj : j < keys.length), first + len ≤ j → t ≤ keys.get ⟨j, hj⟩) →
    (lowerBoundFrom keys t first len ≤ keys.length ∧
     (∀ j (hj : j < keys.length), j < lowerBoundFrom keys t first len →
        keys.get ⟨j, hj⟩ < t) ∧
     (∀ j (hj : j < keys.length), lowerBoundFrom keys t first len ≤ j →
        t ≤ keys.get ⟨j, hj⟩)) := by
  intro len
  induction len using Nat.strong_induction_on with
  | _ len ih =>
    intro first hle hlow hhigh
    by_cases h0 : len = 0
    · subst h0
      have hbase : lowerBoundFrom keys t first 0 = first := by
        rw [lowerBoundFrom]
        simp
      rw [hbase]
      refine ⟨by omega, hlow, ?_⟩
      intro j hj hge
      exact hhigh j hj (by omega)
    · have hmid : first + len / 2 < keys.length := by omega
      have hgetD : keys.getD (first + len / 2) 0 =
          keys.get ⟨first + len / 2, hmid⟩ := by
        rw [List.getD_eq_getElem?_getD, List.getElem?_eq_getElem hmid]
        rfl
      have hstep : lowerBoundFrom keys t first len =
          if keys.getD (first + len / 2) 0 < t then
            lowerBoundFrom keys t (first + len / 2 + 1) (len - len / 2 - 1)
          else lowerBoundFrom keys t first (len / 2) := by
        conv_lhs => rw [lowerBoundFrom]
        rw [dif_neg h0]
      rw [hstep]
      by_cases hc : keys.getD (first + len / 2) 0 < t
      · rw [if_pos hc]
        rw [hgetD] at hc
        refine ih (len - len / 2 - 1) (by omega) (first + len / 2 + 1)
          (by omega) ?_ ?_
        · intro j hj hjlt
          have hjle : j ≤ first + len / 2 := by omega
          exact lt_of_le_of_lt (pairwise_le_get keys hsort j (first + len / 2)
            hj hmid hjle) hc
        · intro j hj hge
          exact hhigh j hj (by omega)
      · rw [if_neg hc]
        rw [hgetD] at hc
        have ht : t ≤ keys.get ⟨first + len / 2, hmid⟩ := not_lt.mp hc
        refine ih (len / 2) (by omega) first (by omega) hlow ?_
        intro j hj hge
        exact le_trans ht (pairwise_le_get keys hsort (first + len / 2) j
          hmid hj (by omega))

/-- Helper: any index with the lower-bound characterization equals the
reference first-index-with-key-≥-t search. -/
theorem eq_findIdx_of_char (keys : List ℚ) (t : ℚ) :
    ∀ r, r ≤ keys.length →
    (∀ j (hj : j < keys.length), j < r → keys.get ⟨j, hj⟩ < t) →
    (∀ j (hj : j < keys.length), r ≤ j → t ≤ keys.get ⟨j, hj⟩) →
    r = keys.findIdx fun k => decide (t ≤ k) := by
  induction keys with
  | nil =>
    intro r hr _ _
    simpa using Nat.le_zero.mp hr
  | cons k ks ih =>
    intro r hr h1 h2
    rw [List.findIdx_cons]
    by_cases hk : t ≤ k
    · rw [decide_eq_true hk]
      simp only [cond_true]
      by_contra hne
      have hrpos : 0 < r := Nat.pos_of_ne_zero hne
      have hkt : k < t := h1 0 (Nat.succ_pos _) hrpos
      exact absurd hk (not_le.mpr hkt)
    · rw [decide_eq_false hk]
      simp only [cond_false]
      cases r with
      | zero => exact absurd (h2 0 (Nat.succ_pos _) (Nat.zero_le 0)) hk
      | succ r2 =>
        have heq : r2 = ks.findIdx fun k2 => decide (t ≤ k2) := by
          refine ih r2 (by simpa using hr) ?_ ?_
          · intro j hj hjr
            exact h1 (j + 1) (by simp only [List.length_cons]; omega) (by omega)
          · intro j hj hjr
            exact h2 (j + 1) (by simp only [List.length_cons]; omega) (by omega)
        omega

/-- C1: over a Sequence whose frames were appended with strictly increasing
timestamps, `find(t)` equals the lower-bound index of a reference search for
every t — the position of the first element with key ≥ t — and in particular
returns `size()` when every key is less than t. -/
theorem C1_find_lower_bound (s : Sequence) (t : ℚ)
    (hs : List.Chain' (· < ·) (Sequence.keys s)) :
    Sequence.find s t = lowerBoundSpec (Sequence.keys s) t ∧
    ((∀ k ∈ Sequence.keys s, k < t) → Sequence.find s t = s.length) := by
  have hpair : List.Pairwise (· ≤ ·) (Sequence.keys s) :=
    (List.chain'_iff_pairwise.mp hs).imp le_of_lt
  obtain ⟨hle, hlow, hhigh⟩ := lowerBoundFrom_char (Sequence.keys s) t hpair
    (Sequence.keys s).length 0 (by omega)
    (fun j hj hlt => absurd hlt (Nat.not_lt_zero j))
    (fun j hj hge => absurd hj (by omega))
  have hmain : lowerBound (Sequence.keys s) t =
      (Sequence.keys s).findIdx fun k => decide (t ≤ k) :=
    eq_findIdx_of_char (Sequence.keys s) t _ hle hlow hhigh
  refine ⟨hmain, ?_⟩
  intro hall
  have hlen : (Sequence.keys s).length =
      (Sequence.keys s).findIdx fun k => decide (t ≤ k) :=
    eq_findIdx_of_char (Sequence.keys s) t (Sequence.keys s).length (le_refl _)
      (fun j hj _ => hall _ (List.get_mem _ j hj))
      (fun j hj hge => absurd hj (by omega))
  show lowerBound (Sequence.keys s) t = s.length
  rw [hmain, ← hlen]
  exact List.length_map s Stamped.key

/-- Witness for C1: keys 1, 2, 3 with t = 5/2 (between existing keys). -/
theorem C1_witness :
    Sequence.find [Stamped.mk 1 (Frame.mk []), Stamped.mk 2 (Frame.mk []),
        Stamped.mk 3 (Frame.mk [])] (5 / 2) =
      lowerBoundSpec (Sequence.keys [Stamped.mk 1 (Frame.mk []),
        Stamped.mk 2 (Frame.mk []), Stamped.mk 3 (Frame.mk [])]) (5 / 2) ∧
    ((∀ k ∈ Sequence.keys [Stamped.mk 1 (Frame.mk []), Stamped.mk 2 (Frame.mk []),
        Stamped.mk 3 (Frame.mk [])], k < 5 / 2) →
      Sequence.find [Stamped.mk 1 (Frame.mk []), Stamped.mk 2 (Frame.mk []),
        Stamped.mk 3 (Frame.mk [])] (5 / 2) =
      List.length [Stamped.mk 1 (Frame.mk []), Stamped.mk 2 (Frame.mk []),
        Stamped.mk 3 (Frame.mk [])]) :=
  C1_find_lower_bound [Stamped.mk 1 (Frame.mk []), Stamped.mk 2 (Frame.mk []),
    Stamped.mk 3 (Frame.mk [])] (5 / 2)
    (by norm_num [Sequence.keys, List.chain'_cons])

end Trigno
